import Mathlib

/-!
Verification of the PyVantagePro synchronization core
(`src/pyvantagepro/__main__.py`): the archive fetch driver `getarchives`,
the `update` command's resume-point computation and append step, and the
CLI error dispatch in `main`.

Records are Python dicts, embedded as association lists of string pairs;
a CSV store file is embedded at row granularity as a list of rows of
cells (the spec places delimiter escaping out of scope as I/O glue).
Timestamps are the fixed-width strings `YYYY-MM-DD HH:MM:SS`, on which
lexicographic string order coincides with chronological order.

The helper modules `pyvantagepro.utils` (ListDict, csv_to_dict, to_csv)
and `pyvantagepro.device` (VantagePro2.get_archives and its generator)
are not part of the sources; their definitions below are modelled from
the specification and are marked as such in their doc comments.
-/

namespace PyVantagePro

/-- A record is a Python dict: a flat mapping from field names to text
values, embedded as an association list (first binding wins on lookup,
and a genuine Python dict has no duplicate keys). -/
abbrev Record := List (String × String)

/-- One line of the CSV store, at cell granularity. -/
abbrev Row := List String

/-- Dict lookup `r[f]`, returning `none` when the key is absent (where
Python would raise `KeyError`; the theorems below restrict to records
carrying the fields they access, matching the device contract that every
yielded record carries a `Datetime` field). -/
def getField (r : Record) (f : String) : Option String :=
  (r.find? (fun p => p.1 == f)).map Prod.snd

/-- The value a record supplies for sorting/dedup on a field
(`item[field]` in `ListDict.sorted_by` and in the dedup loop). -/
def fieldKey (field : String) (r : Record) : String :=
  (getField r field).getD ""

/-- The record's `Datetime` value, the field every part of the core keys on. -/
def dtKey (r : Record) : String :=
  fieldKey "Datetime" r

/-- Lexicographic comparison of character lists, the order Python uses to
compare the `str` values that sorting and timestamps key on. -/
def charsLe : List Char → List Char → Bool
  | [], _ => true
  | _ :: _, [] => false
  | a :: as, b :: bs => if a < b then true else if b < a then false else charsLe as bs

/-- Python's `<=` on strings: code-point lexicographic order. On the
fixed-width timestamps `YYYY-MM-DD HH:MM:SS` this coincides with
chronological order. -/
def strLe (a b : String) : Bool :=
  charsLe a.toList b.toList

/-- The sort relation of `sorted_by(field)`: compare two records by the
value of the chosen field. -/
def fieldLe (field : String) (a b : Record) : Prop :=
  strLe (fieldKey field a) (fieldKey field b) = true

/-- The reversed sort relation of `sorted_by(field, reverse=True)`. -/
def fieldGe (field : String) (a b : Record) : Prop :=
  fieldLe field b a

instance (field : String) : DecidableRel (fieldLe field) :=
  fun _ _ => decEq _ _

instance (field : String) : DecidableRel (fieldGe field) :=
  fun _ _ => decEq _ _

/-- Modelled from the spec: `ListDict.sorted_by(field, reverse)` from the
absent `pyvantagepro.utils` module — "returns a new collection ordered by
the given field's value, stable with respect to ties, ascending unless
reverse requested". Embedded as a stable insertion sort on the field's
value, matching the stability of Python's `sorted`. -/
def sorted_by (field : String) (rev : Bool) (l : List Record) : List Record :=
  if rev then l.insertionSort (fieldGe field) else l.insertionSort (fieldLe field)

/-- The dedup loop of `getarchives` (`__main__.py` lines 68-72): walk the
generator's records; a record whose `Datetime` is not yet in `dates` is
appended to `archives` and its `Datetime` to `dates`; otherwise it is
discarded. Returns the final `(archives, dates)` pair. -/
def dedupLoop : List Record → List Record → List String → List Record × List String
  | [], archives, dates => (archives, dates)
  | r :: rs, archives, dates =>
    if dtKey r ∈ dates then dedupLoop rs archives dates
    else dedupLoop rs (archives ++ [r]) (dates ++ [dtKey r])

/-- The non-debug body of `getarchives` with the progress bar threaded
explicitly (`__main__.py` lines 63-73): `enumerate(generator)` supplies
`step`, `pbar.update(step)` is recorded in `log`, and the dedup check
follows. Returns the progress log with the final `(archives, dates)`. -/
def progressLoop : List Record → Nat → List Nat → List Record → List String →
    List Nat × List Record × List String
  | [], _, log, archives, dates => (log, archives, dates)
  | r :: rs, step, log, archives, dates =>
    if dtKey r ∈ dates then
      progressLoop rs (step + 1) (log ++ [step]) archives dates
    else
      progressLoop rs (step + 1) (log ++ [step]) (archives ++ [r]) (dates ++ [dtKey r])

/-- The non-debug path of `getarchives` (`__main__.py` lines 62-82):
consume the generator while updating the progress bar, dedup by
`Datetime`, and return `archives.sorted_by('Datetime')` together with the
sequence of progress-bar updates performed. -/
def getarchivesWithProgress (src : List Record) : List Nat × List Record :=
  ((progressLoop src 0 [] [] []).1,
   sorted_by "Datetime" false (progressLoop src 0 [] [] []).2.1)

/-- The record collection produced by the non-debug path of `getarchives`
(its progress log discarded, as the caller does). -/
def getarchivesResult (src : List Record) : List Record :=
  (getarchivesWithProgress src).2

/-- Modelled from the spec: `VantagePro2.get_archives` from the absent
`pyvantagepro.device` module, the debug path of `getarchives` (line 60).
Per §4.4 the driver deduplicates by timestamp as records arrive, returns
`accumulated.sorted_by('Datetime')`, and "must function identically with
progress reporting disabled". -/
def get_archives (src : List Record) : List Record :=
  sorted_by "Datetime" false (dedupLoop src [] []).1

/-- The errors a synchronization run can raise in this model:
a device/connectivity failure, or an unparsable timestamp. -/
inductive Err where
  | connectivity : String → Err
  | parseError : String → Err
deriving DecidableEq, Repr

/-- The device collaborator (spec §6): given an optional inclusive start
and stop bound, either fail or yield a finite sequence of records. The
window bounds are inclusive per the spec; the sequence a concrete device
yields for a window is a parameter of every theorem below. -/
abbrev Device := Option String → Option String → Except Err (List Record)

/-- Fetch one window: run the device generator for `(start, stop)` and
feed its yield through the `getarchives` dedup-and-sort driver; a device
failure propagates. -/
def fetchWindow (device : Device) (start stop : Option String) : Except Err (List Record) :=
  match device start stop with
  | .error e => .error e
  | .ok src => .ok (getarchivesResult src)

/-- Field names of a record in their fixed order (the dict's key order). -/
def fieldNames (r : Record) : List String :=
  r.map Prod.fst

/-- The CSV cells a record contributes under a given header. -/
def rowOf (keys : List String) (r : Record) : Row :=
  keys.map (fun k => (getField r k).getD "")

/-- Modelled from the spec: `ListDict.to_csv` from the absent
`pyvantagepro.utils` module — "header row lists field names in a fixed,
deterministic order derived from the first record; every row must have
exactly the same fields as the header, in the same order". An empty
collection serializes to nothing (no rows, not even a header), as the
spec's empty-window property requires a merge of an empty fetch to leave
the store unchanged. -/
def to_csv (items : List Record) (header : Bool) : List Row :=
  match items with
  | [] => []
  | r0 :: _ => (if header then [fieldNames r0] else []) ++ items.map (rowOf (fieldNames r0))

/-- Modelled from the spec: `csv_to_dict` from the absent
`pyvantagepro.utils` module — "parses header + rows" into a record
collection; an empty or freshly created stream yields zero records. -/
def csv_to_dict (rows : List Row) : List Record :=
  match rows with
  | [] => []
  | keys :: dataRows => dataRows.map (fun row => keys.zip row)

/-- Shape check for a second-precision timestamp `YYYY-MM-DD HH:MM:SS`:
19 characters with digits and separators in the fixed positions. -/
def digitAt (cs : List Char) (i : Nat) : Bool :=
  match cs.get? i with
  | some c => c.isDigit
  | none => false

/-- Separator check at a fixed position of the timestamp. -/
def sepAt (cs : List Char) (i : Nat) (c : Char) : Bool :=
  cs.get? i == some c

/-- Whether a string matches the fixed-width format `%Y-%m-%d %H:%M:%S`. -/
def isSecondStamp (s : String) : Bool :=
  let cs := s.toList
  cs.length == 19 &&
  digitAt cs 0 && digitAt cs 1 && digitAt cs 2 && digitAt cs 3 &&
  sepAt cs 4 '-' && digitAt cs 5 && digitAt cs 6 && sepAt cs 7 '-' &&
  digitAt cs 8 && digitAt cs 9 && sepAt cs 10 ' ' &&
  digitAt cs 11 && digitAt cs 12 && sepAt cs 13 ':' &&
  digitAt cs 14 && digitAt cs 15 && sepAt cs 16 ':' &&
  digitAt cs 17 && digitAt cs 18

/-- Models `datetime.strptime(s, "%Y-%m-%d %H:%M:%S")` (`__main__.py`
lines 105-106) at the shape level: a string of the right shape parses to
itself (timestamps in this format compare lexicographically, so the
string is its own order-faithful representation); anything else raises. -/
def strptimeSecond (s : String) : Except Err String :=
  if isSecondStamp s then .ok s else .error (.parseError s)

/-- The resume-point computation of `update_cmd` (`__main__.py` lines
101-107): `args.start = None`; if the loaded store is non-empty, sort it
by `Datetime` descending and parse the first record's `Datetime` at
second precision as the new start bound. -/
def resumeStart (db : List Record) : Except Err (Option String) :=
  if 0 < db.length then
    match (sorted_by "Datetime" true db).head? with
    | none => .error (.parseError "")
    | some r =>
      match strptimeSecond (dtKey r) with
      | .error e => .error e
      | .ok t => .ok (some t)
  else .ok none

/-- One synchronization pass of `update_cmd` (`__main__.py` lines
95-111) on a store whose current content is `rows`: load the store,
compute the resume point, fetch `(start, None)` through the archive
driver, and write the batch after the existing content — with a header
exactly when the `len(db) > 0` test failed. The write (lines 109/111)
happens only after `getarchives` has returned, so an error anywhere
earlier produces no new file content; the file handle is positioned at
end-of-file by the full read in `csv_to_dict`, so a successful write
appends. -/
def update_run (device : Device) (rows : List Row) : Except Err (List Row) :=
  match resumeStart (csv_to_dict rows) with
  | .error e => .error e
  | .ok (some t) =>
    match fetchWindow device (some t) none with
    | .error e => .error e
    | .ok items => .ok (rows ++ to_csv items false)
  | .ok none =>
    match fetchWindow device none none with
    | .error e => .error e
    | .ok items => .ok (rows ++ to_csv items true)

/-- The outcome `main` (`__main__.py` lines 217-227) delivers for an
update run: the final store on success; in debug mode an exception
propagates unchanged (no try block); in non-debug mode the exception is
caught and converted to `parser.error(f'{e}')`, a CLI error carrying
only the exception's message. -/
inductive CliOutcome where
  | ok : List Row → CliOutcome
  | failed : Err → CliOutcome
  | cliError : String → CliOutcome
deriving DecidableEq, Repr

/-- The message `f'{e}'` that `parser.error` receives for an exception. -/
def errMessage : Err → String
  | .connectivity m => m
  | .parseError s => "time data " ++ s ++ " does not match format %Y-%m-%d %H:%M:%S"

/-- The dispatch of `main` (`__main__.py` lines 217-227) around one
update run: debug mode runs `args.func` bare, so an error propagates
unmodified; non-debug mode wraps it in `try/except Exception` and
reports `parser.error(f'{e}')`. -/
def main_run (debug : Bool) (device : Device) (rows : List Row) : CliOutcome :=
  if debug then
    match update_run device rows with
    | .ok res => .ok res
    | .error e => .failed e
  else
    match update_run device rows with
    | .ok res => .ok res
    | .error e => .cliError (errMessage e)

/-- The store file's content after a run: the new content on success;
unchanged when the run failed, because the only write in `update_cmd`
(lines 109/111) executes after the whole batch has been fetched and
serialized. -/
def storeAfter (device : Device) (rows : List Row) : List Row :=
  match update_run device rows with
  | .ok res => res
  | .error _ => rows

/-- A record is the first one of a sequence carrying its `Datetime`
value: it occurs in the sequence and every earlier record has a
different `Datetime`. -/
def FirstOccurrence (src : List Record) (r : Record) : Prop :=
  ∃ pre post, src = pre ++ r :: post ∧ ∀ rr ∈ pre, dtKey rr ≠ dtKey r

/-! Order facts about the lexicographic comparison. -/

lemma charsLe_cons {a b : Char} {as bs : List Char} :
    charsLe (a :: as) (b :: bs) = true ↔ a < b ∨ (a = b ∧ charsLe as bs = true) := by
  by_cases hab : a < b
  · simp [charsLe, hab]
  · by_cases hba : b < a
    · constructor
      · intro h
        simp [charsLe, hab, hba] at h
      · rintro (h | ⟨rfl, h⟩)
        · exact absurd h hab
        · exact absurd hba (lt_irrefl a)
    · have heq : a = b := le_antisymm (not_lt.mp hba) (not_lt.mp hab)
      subst heq
      simp [charsLe, hba]

lemma charsLe_refl : ∀ as : List Char, charsLe as as = true
  | [] => rfl
  | _ :: as => charsLe_cons.mpr (Or.inr ⟨rfl, charsLe_refl as⟩)

lemma charsLe_total : ∀ as bs : List Char, charsLe as bs = true ∨ charsLe bs as = true
  | [], _ => Or.inl rfl
  | _ :: _, [] => Or.inr rfl
  | a :: as, b :: bs => by
    rcases lt_trichotomy a b with h | h | h
    · exact Or.inl (charsLe_cons.mpr (Or.inl h))
    · rcases charsLe_total as bs with ih | ih
      · exact Or.inl (charsLe_cons.mpr (Or.inr ⟨h, ih⟩))
      · exact Or.inr (charsLe_cons.mpr (Or.inr ⟨h.symm, ih⟩))
    · exact Or.inr (charsLe_cons.mpr (Or.inl h))

lemma charsLe_trans : ∀ as bs cs : List Char,
    charsLe as bs = true → charsLe bs cs = true → charsLe as cs = true
  | [], _, _, _, _ => rfl
  | _ :: _, [], _, h1, _ => by simp [charsLe] at h1
  | _ :: _, _ :: _, [], _, h2 => by simp [charsLe] at h2
  | a :: as, b :: bs, c :: cs, h1, h2 => by
    rcases charsLe_cons.mp h1 with hab | ⟨hab, h1t⟩
    · rcases charsLe_cons.mp h2 with hbc | ⟨hbc, _⟩
      · exact charsLe_cons.mpr (Or.inl (lt_trans hab hbc))
      · exact charsLe_cons.mpr (Or.inl (hbc ▸ hab))
    · rcases charsLe_cons.mp h2 with hbc | ⟨hbc, h2t⟩
      · exact charsLe_cons.mpr (Or.inl (hab ▸ hbc))
      · exact charsLe_cons.mpr (Or.inr ⟨hab.trans hbc, charsLe_trans as bs cs h1t h2t⟩)

lemma strLe_refl (a : String) : strLe a a = true :=
  charsLe_refl a.toList

lemma strLe_total (a b : String) : strLe a b = true ∨ strLe b a = true :=
  charsLe_total a.toList b.toList

lemma strLe_trans {a b c : String} (h1 : strLe a b = true) (h2 : strLe b c = true) :
    strLe a c = true :=
  charsLe_trans a.toList b.toList c.toList h1 h2

instance (field : String) : IsTotal Record (fieldLe field) :=
  ⟨fun a b => strLe_total (fieldKey field a) (fieldKey field b)⟩

instance (field : String) : IsTrans Record (fieldLe field) :=
  ⟨fun _ _ _ h1 h2 => strLe_trans h1 h2⟩

instance (field : String) : IsTotal Record (fieldGe field) :=
  ⟨fun a b => (strLe_total (fieldKey field a) (fieldKey field b)).symm⟩

instance (field : String) : IsTrans Record (fieldGe field) :=
  ⟨fun _ _ _ h1 h2 => strLe_trans h2 h1⟩

/-! Facts about `sorted_by`. -/

lemma sorted_by_perm (field : String) (rev : Bool) (l : List Record) :
    (sorted_by field rev l).Perm l := by
  unfold sorted_by
  split
  · exact List.perm_insertionSort (fieldGe field) l
  · exact List.perm_insertionSort (fieldLe field) l

lemma sorted_by_asc (field : String) (l : List Record) :
    List.Pairwise (fieldLe field) (sorted_by field false l) := by
  simpa [sorted_by] using List.sorted_insertionSort (fieldLe field) l

lemma sorted_by_desc (field : String) (l : List Record) :
    List.Pairwise (fieldGe field) (sorted_by field true l) := by
  simpa [sorted_by] using List.sorted_insertionSort (fieldGe field) l

lemma sorted_by_desc_head_max (field : String) (l : List Record) (r : Record)
    (rest : List Record) (h : sorted_by field true l = r :: rest) :
    r ∈ l ∧ ∀ x ∈ l, strLe (fieldKey field x) (fieldKey field r) = true := by
  have hperm : (r :: rest).Perm l := h ▸ sorted_by_perm field true l
  have hsort : List.Pairwise (fieldGe field) (r :: rest) := h ▸ sorted_by_desc field l
  refine ⟨hperm.mem_iff.mp (List.mem_cons_self r rest), fun x hx => ?_⟩
  rcases List.mem_cons.mp (hperm.mem_iff.mpr hx) with rfl | hx'
  · exact strLe_refl _
  · exact (List.pairwise_cons.mp hsort).1 x hx'

/-! Facts about the dedup loop. -/

lemma dedupLoop_snd : ∀ (src archives : List Record) (dates : List String),
    dates = archives.map dtKey →
    (dedupLoop src archives dates).2 = (dedupLoop src archives dates).1.map dtKey
  | [], _, _, h => by simpa [dedupLoop] using h
  | r :: rs, archives, dates, h => by
    by_cases hd : dtKey r ∈ dates
    · simpa [dedupLoop, hd] using dedupLoop_snd rs archives dates h
    · simpa [dedupLoop, hd] using
        dedupLoop_snd rs (archives ++ [r]) (dates ++ [dtKey r]) (by simp [h])

lemma dedupLoop_nodup : ∀ (src archives : List Record) (dates : List String),
    dates.Nodup → (dedupLoop src archives dates).2.Nodup
  | [], _, _, h => by simpa [dedupLoop] using h
  | r :: rs, archives, dates, h => by
    by_cases hd : dtKey r ∈ dates
    · simpa [dedupLoop, hd] using dedupLoop_nodup rs archives dates h
    · have hnd : (dates ++ [dtKey r]).Nodup := by
        rw [List.nodup_append]
        exact ⟨h, List.nodup_singleton _, by simpa [List.disjoint_singleton] using hd⟩
      simpa [dedupLoop, hd] using dedupLoop_nodup rs (archives ++ [r]) (dates ++ [dtKey r]) hnd

lemma dedupLoop_first : ∀ (src archives : List Record) (dates : List String),
    ∀ r ∈ (dedupLoop src archives dates).1,
      r ∈ archives ∨ (FirstOccurrence src r ∧ dtKey r ∉ dates)
  | [], _, _, r, hr => Or.inl (by simpa [dedupLoop] using hr)
  | r0 :: rs, archives, dates, r, hr => by
    by_cases hd : dtKey r0 ∈ dates
    · have hr' : r ∈ (dedupLoop rs archives dates).1 := by simpa [dedupLoop, hd] using hr
      rcases dedupLoop_first rs archives dates r hr' with h | ⟨⟨pre, post, hsplit, hfirst⟩, hnot⟩
      · exact Or.inl h
      · refine Or.inr ⟨⟨r0 :: pre, post, by simp [hsplit], ?_⟩, hnot⟩
        intro rr hrr
        rcases List.mem_cons.mp hrr with rfl | hrr'
        · exact fun heq => hnot (heq ▸ hd)
        · exact hfirst rr hrr'
    · have hr' : r ∈ (dedupLoop rs (archives ++ [r0]) (dates ++ [dtKey r0])).1 := by
        simpa [dedupLoop, hd] using hr
      rcases dedupLoop_first rs (archives ++ [r0]) (dates ++ [dtKey r0]) r hr' with
        h | ⟨⟨pre, post, hsplit, hfirst⟩, hnot⟩
      · rcases List.mem_append.mp h with h' | h'
        · exact Or.inl h'
        · have : r = r0 := by simpa using h'
          subst this
          exact Or.inr ⟨⟨[], rs, rfl, by simp⟩, hd⟩
      · have hnotd : dtKey r ∉ dates := fun hx => hnot (List.mem_append.mpr (Or.inl hx))
        have hner0 : dtKey r0 ≠ dtKey r := by
          intro heq
          exact hnot (List.mem_append.mpr (Or.inr (by simp [heq])))
        exact Or.inr ⟨⟨r0 :: pre, post, by simp [hsplit], fun rr hrr => by
          rcases List.mem_cons.mp hrr with rfl | hrr'
          · exact hner0
          · exact hfirst rr hrr'⟩, hnotd⟩

lemma dedupLoop_dates_mono : ∀ (src archives : List Record) (dates : List String),
    ∀ d ∈ dates, d ∈ (dedupLoop src archives dates).2
  | [], _, _, d, hd => by simpa [dedupLoop] using hd
  | r :: rs, archives, dates, d, hd => by
    by_cases hmem : dtKey r ∈ dates
    · simpa [dedupLoop, hmem] using dedupLoop_dates_mono rs archives dates d hd
    · simpa [dedupLoop, hmem] using
        dedupLoop_dates_mono rs (archives ++ [r]) (dates ++ [dtKey r]) d
          (List.mem_append.mpr (Or.inl hd))

lemma dedupLoop_complete : ∀ (src archives : List Record) (dates : List String),
    ∀ r ∈ src, dtKey r ∈ (dedupLoop src archives dates).2
  | r0 :: rs, archives, dates, r, hr => by
    by_cases hmem : dtKey r0 ∈ dates
    · rcases List.mem_cons.mp hr with rfl | hr'
      · simpa [dedupLoop, hmem] using dedupLoop_dates_mono rs archives dates (dtKey r) hmem
      · simpa [dedupLoop, hmem] using dedupLoop_complete rs archives dates r hr'
    · rcases List.mem_cons.mp hr with rfl | hr'
      · simpa [dedupLoop, hmem] using
          dedupLoop_dates_mono rs (archives ++ [r]) (dates ++ [dtKey r]) (dtKey r) (by simp)
      · simpa [dedupLoop, hmem] using
          dedupLoop_complete rs (archives ++ [r0]) (dates ++ [dtKey r0]) r hr'

/-! The progress-bar threading does not change the dedup computation. -/

lemma progressLoop_dedup : ∀ (src : List Record) (step : Nat) (log : List Nat)
    (archives : List Record) (dates : List String),
    (progressLoop src step log archives dates).2 = dedupLoop src archives dates
  | [], _, _, _, _ => rfl
  | r :: rs, step, log, archives, dates => by
    by_cases hd : dtKey r ∈ dates
    · simpa [progressLoop, dedupLoop, hd] using
        progressLoop_dedup rs (step + 1) (log ++ [step]) archives dates
    · simpa [progressLoop, dedupLoop, hd] using
        progressLoop_dedup rs (step + 1) (log ++ [step]) (archives ++ [r]) (dates ++ [dtKey r])

lemma getarchivesResult_eq (src : List Record) :
    getarchivesResult src = sorted_by "Datetime" false (dedupLoop src [] []).1 := by
  unfold getarchivesResult getarchivesWithProgress
  rw [progressLoop_dedup]

lemma getarchivesResult_nil : getarchivesResult [] = [] :=
  rfl

/-! Facts about the store codec. -/

lemma getField_cons (a b k : String) (tl : Record) :
    getField ((a, b) :: tl) k = if a == k then some b else getField tl k := by
  by_cases h : a == k
  · simp [getField, List.find?_cons_of_pos, h]
  · simp [getField, List.find?_cons_of_neg, h]

lemma rowOf_self : ∀ r : Record, (fieldNames r).Nodup → rowOf (fieldNames r) r = r.map Prod.snd
  | [], _ => rfl
  | (a, b) :: tl, h => by
    have h' := List.nodup_cons.mp (show (a :: fieldNames tl).Nodup from h)
    have hcong : (fieldNames tl).map (fun k => (getField ((a, b) :: tl) k).getD "") =
        (fieldNames tl).map (fun k => (getField tl k).getD "") := by
      apply List.map_congr_left
      intro k hk
      have hne : (a == k) = false := by
        simp only [beq_eq_false_iff_ne]
        exact fun heq => h'.1 (heq ▸ hk)
      rw [getField_cons, hne]
      simp
    have ih := rowOf_self tl h'.2
    have hget : getField ((a, b) :: tl) a = some b := by
      rw [getField_cons]
      simp
    show (getField ((a, b) :: tl) a).getD "" ::
        (fieldNames tl).map (fun k => (getField ((a, b) :: tl) k).getD "") = b :: tl.map Prod.snd
    rw [hget, hcong]
    exact congrArg (List.cons b) ih

lemma zip_fst_snd (r : Record) : (r.map Prod.fst).zip (r.map Prod.snd) = r := by
  have h := List.zip_unzip r
  rw [List.unzip_eq_map] at h
  simpa using h

lemma to_csv_length (items : List Record) (header : Bool) :
    (to_csv items header).length =
      items.length + (if header = true ∧ items ≠ [] then 1 else 0) := by
  cases items with
  | nil => simp [to_csv]
  | cons r0 tl => cases header <;> simp [to_csv]

/-! Concrete inputs for the boundary scenario of spec §8 and for the
error and witness instances. -/

/-- The record persisted in the §8 scenario store. -/
def recA : Record := [("Datetime", "2024-01-01 00:00:00"), ("Temp", "20")]

/-- The genuinely new record of the §8 scenario. -/
def recB : Record := [("Datetime", "2024-01-01 00:05:00"), ("Temp", "21")]

/-- The §8 scenario store file: a header and one data row at the
boundary timestamp. -/
def rows0 : List Row := [["Datetime", "Temp"], ["2024-01-01 00:00:00", "20"]]

/-- The §8 scenario device: asked from the boundary timestamp onward, it
re-yields the boundary record and one new record (the inclusive lower
bound re-fetches the boundary record, as the spec states). -/
def devBoundary : Device := fun s _ =>
  if s == some "2024-01-01 00:00:00" then .ok [recA, recB] else .ok []

/-- A device whose archive is empty for every window. -/
def devEmpty : Device := fun _ _ => .ok []

/-- A device that fails with a connectivity error for every window. -/
def devBoom : Device := fun _ _ => .error (.connectivity "boom")

/-- C1: the claim asserts that a record of the fetched batch whose
`Datetime` already exists in the loaded store is excluded before
appending, so the final store has one row per distinct `Datetime`.
The code has no such exclusion: `update_cmd` appends the whole
`getarchives` batch, whose dedup set starts empty and never consults the
store. On the spec's own §8 scenario the re-fetched boundary record is
appended again, and the final store carries two rows with `Datetime`
`2024-01-01 00:00:00`. -/
theorem c1_boundary_duplicate :
    update_run devBoundary rows0 = .ok
      [["Datetime", "Temp"], ["2024-01-01 00:00:00", "20"],
       ["2024-01-01 00:00:00", "20"], ["2024-01-01 00:05:00", "21"]] ∧
    List.countP (fun row : Row => row.head? == some "2024-01-01 00:00:00")
      [["Datetime", "Temp"], ["2024-01-01 00:00:00", "20"],
       ["2024-01-01 00:00:00", "20"], ["2024-01-01 00:05:00", "21"]] = 2 :=
  ⟨rfl, rfl⟩

/-- C2: for every finite sequence of records yielded by the device
generator (each carrying a `Datetime` field, per the device contract),
the fetch driver of lines 63-82 returns the first-seen-per-`Datetime`
subset of the sequence sorted ascending: adjacent results are ordered by
`Datetime`, no two results share a `Datetime`, each result is the first
yielded record with its `Datetime`, every yielded `Datetime` is
represented, and an empty source yields an empty collection. -/
theorem c2_fetch_driver_result (src : List Record)
    (_hwf : ∀ r ∈ src, (getField r "Datetime").isSome = true) :
    List.Pairwise (fun a b => strLe (dtKey a) (dtKey b) = true) (getarchivesResult src) ∧
    ((getarchivesResult src).map dtKey).Nodup ∧
    (∀ r ∈ getarchivesResult src, FirstOccurrence src r) ∧
    (∀ r ∈ src, dtKey r ∈ (getarchivesResult src).map dtKey) ∧
    getarchivesResult [] = [] := by
  have hperm : (sorted_by "Datetime" false (dedupLoop src [] []).1).Perm
      (dedupLoop src [] []).1 := sorted_by_perm "Datetime" false _
  rw [getarchivesResult_eq]
  refine ⟨sorted_by_asc "Datetime" _, ?_, ?_, ?_, rfl⟩
  · have hsnd := dedupLoop_snd src [] [] rfl
    have hnd := dedupLoop_nodup src [] [] List.nodup_nil
    rw [hsnd] at hnd
    exact ((hperm.map dtKey).symm).nodup hnd
  · intro r hr
    rcases dedupLoop_first src [] [] r (hperm.mem_iff.mp hr) with h | ⟨h, _⟩
    · exact absurd h (List.not_mem_nil r)
    · exact h
  · intro r hr
    have hc := dedupLoop_complete src [] [] r hr
    rw [dedupLoop_snd src [] [] rfl] at hc
    exact (hperm.map dtKey).mem_iff.mpr hc

/-- Witness for C2 at a concrete out-of-order sequence with a duplicate. -/
theorem c2_fetch_driver_result_witness :
    (∀ r ∈ [recB, recA, recA], (getField r "Datetime").isSome = true) ∧
    (List.Pairwise (fun a b => strLe (dtKey a) (dtKey b) = true)
        (getarchivesResult [recB, recA, recA]) ∧
      ((getarchivesResult [recB, recA, recA]).map dtKey).Nodup ∧
      (∀ r ∈ getarchivesResult [recB, recA, recA], FirstOccurrence [recB, recA, recA] r) ∧
      (∀ r ∈ [recB, recA, recA], dtKey r ∈ (getarchivesResult [recB, recA, recA]).map dtKey) ∧
      getarchivesResult [] = []) :=
  ⟨by decide, c2_fetch_driver_result [recB, recA, recA] (by decide)⟩

/-- C9: the debug path of `getarchives` returns
`vp.get_archives(start, stop)` with no progress bar, while the non-debug
path consumes the generator updating a progress bar before the dedup
check; for every record sequence the two paths produce the same
collection — the progress threading does not affect the result. -/
theorem c9_progress_equivalence (src : List Record) :
    (getarchivesWithProgress src).2 = get_archives src := by
  unfold getarchivesWithProgress get_archives
  rw [progressLoop_dedup]

/-! Branch equations of `update_run`, mirroring the two branches of the
`len(db) > 0` test and the placement of the only write. -/

lemma update_run_err (device : Device) (rows : List Row) (e : Err)
    (h : resumeStart (csv_to_dict rows) = .error e) :
    update_run device rows = .error e := by
  simp only [update_run, h]

lemma update_run_none_ok (device : Device) (rows : List Row) (items : List Record)
    (h1 : resumeStart (csv_to_dict rows) = .ok none)
    (h2 : fetchWindow device none none = .ok items) :
    update_run device rows = .ok (rows ++ to_csv items true) := by
  simp only [update_run, h1, h2]

lemma update_run_none_err (device : Device) (rows : List Row) (e : Err)
    (h1 : resumeStart (csv_to_dict rows) = .ok none)
    (h2 : fetchWindow device none none = .error e) :
    update_run device rows = .error e := by
  simp only [update_run, h1, h2]

lemma update_run_some_ok (device : Device) (rows : List Row) (t : String)
    (items : List Record)
    (h1 : resumeStart (csv_to_dict rows) = .ok (some t))
    (h2 : fetchWindow device (some t) none = .ok items) :
    update_run device rows = .ok (rows ++ to_csv items false) := by
  simp only [update_run, h1, h2]

lemma update_run_some_err (device : Device) (rows : List Row) (t : String) (e : Err)
    (h1 : resumeStart (csv_to_dict rows) = .ok (some t))
    (h2 : fetchWindow device (some t) none = .error e) :
    update_run device rows = .error e := by
  simp only [update_run, h1, h2]

/-- When the loaded store is non-empty, `resumeStart` either fails or
produces a lower bound: it never reports the empty-store resume point. -/
lemma resumeStart_pos (db : List Record) (hlen : 0 < db.length) :
    (∃ e, resumeStart db = .error e) ∨ ∃ t, resumeStart db = .ok (some t) := by
  cases hh : (sorted_by "Datetime" true db).head? with
  | none => exact Or.inl ⟨Err.parseError "", by simp [resumeStart, hlen, hh]⟩
  | some r =>
    cases hp : strptimeSecond (dtKey r) with
    | error e => exact Or.inl ⟨e, by simp [resumeStart, hlen, hh, hp]⟩
    | ok t => exact Or.inr ⟨t, by simp [resumeStart, hlen, hh, hp]⟩

/-- C3: for every loaded store collection, the resume point of
`update_cmd` is: `None` (no lower bound) when the collection is empty;
otherwise the `Datetime` of the first record of the descending sort —
equivalently a maximal `Datetime` of the store — parsed at second
precision, and the next fetch is requested with exactly that inclusive
lower bound and no upper bound. -/
theorem c3_resume_point (db : List Record) (rows : List Row) (device : Device)
    (hload : csv_to_dict rows = db)
    (hwf : ∀ r ∈ db, isSecondStamp (dtKey r) = true) :
    (db = [] → resumeStart db = .ok none ∧
      ∀ items, fetchWindow device none none = .ok items →
        update_run device rows = .ok (rows ++ to_csv items true)) ∧
    (db ≠ [] → ∃ t, resumeStart db = .ok (some t) ∧ t ∈ db.map dtKey ∧
      (∀ d ∈ db.map dtKey, strLe d t = true) ∧ isSecondStamp t = true ∧
      ∀ items, fetchWindow device (some t) none = .ok items →
        update_run device rows = .ok (rows ++ to_csv items false)) := by
  constructor
  · rintro rfl
    exact ⟨rfl, fun items hfw =>
      update_run_none_ok device rows items (by rw [hload]; rfl) hfw⟩
  · intro hne
    obtain ⟨r, rest, hsort⟩ : ∃ r rest, sorted_by "Datetime" true db = r :: rest := by
      cases hs : sorted_by "Datetime" true db with
      | nil =>
        have hp := sorted_by_perm "Datetime" true db
        rw [hs] at hp
        exact absurd hp.symm.eq_nil hne
      | cons r rest => exact ⟨r, rest, rfl⟩
    have hmax := sorted_by_desc_head_max "Datetime" db r rest hsort
    have hstamp := hwf r hmax.1
    have hlen : 0 < db.length := List.length_pos.mpr hne
    have hres : resumeStart db = .ok (some (dtKey r)) := by
      unfold resumeStart
      rw [if_pos hlen, hsort]
      simp [strptimeSecond, hstamp]
    refine ⟨dtKey r, hres, List.mem_map_of_mem dtKey hmax.1, ?_, hstamp, ?_⟩
    · intro d hd
      obtain ⟨x, hx, rfl⟩ := List.mem_map.mp hd
      exact hmax.2 x hx
    · exact fun items hfw =>
        update_run_some_ok device rows (dtKey r) items (by rw [hload]; exact hres) hfw

/-- Witness for C3 on the §8 scenario store. -/
theorem c3_resume_point_witness :
    csv_to_dict rows0 = [recA] ∧ (∀ r ∈ [recA], isSecondStamp (dtKey r) = true) ∧
    (([recA] = [] → resumeStart [recA] = .ok none ∧
      ∀ items, fetchWindow devBoundary none none = .ok items →
        update_run devBoundary rows0 = .ok (rows0 ++ to_csv items true)) ∧
    ([recA] ≠ [] → ∃ t, resumeStart [recA] = .ok (some t) ∧ t ∈ [recA].map dtKey ∧
      (∀ d ∈ [recA].map dtKey, strLe d t = true) ∧ isSecondStamp t = true ∧
      ∀ items, fetchWindow devBoundary (some t) none = .ok items →
        update_run devBoundary rows0 = .ok (rows0 ++ to_csv items false))) :=
  ⟨rfl, by decide, c3_resume_point [recA] rows0 devBoundary rfl (by decide)⟩

/-- C4 counterexample: the claim states the appended batch includes a
header row if and only if the loaded store was empty. On an empty store
with an empty device archive, `getarchives` returns an empty collection
and its serialization is empty — nothing, in particular no header row,
is appended even though the store was empty, refuting the "if"
direction. -/
theorem c4_counterexample :
    update_run devEmpty ([] : List Row) = .ok [] ∧
    csv_to_dict ([] : List Row) = [] ∧
    to_csv ([] : List Record) true = [] :=
  ⟨rfl, rfl, rfl⟩

/-- C4 amended: in every successful update run the appended batch is
serialized with the header flag set exactly when the loaded store was
empty, and the batch actually contains a header row if and only if the
store was empty AND the fetched batch is non-empty: the row count grows
by the number of fetched records, plus one extra (header) row exactly in
that case. -/
theorem c4_header_amended (device : Device) (rows res : List Row)
    (h : update_run device rows = .ok res) :
    ∃ s items, resumeStart (csv_to_dict rows) = .ok s ∧
      fetchWindow device s none = .ok items ∧
      res = rows ++ to_csv items (csv_to_dict rows).isEmpty ∧
      (s = none ↔ csv_to_dict rows = []) ∧
      res.length = rows.length + items.length +
        (if csv_to_dict rows = [] ∧ items ≠ [] then 1 else 0) := by
  cases hres : resumeStart (csv_to_dict rows) with
  | error e =>
    rw [update_run_err device rows e hres] at h
    cases h
  | ok s =>
    cases s with
    | none =>
      have hempty : csv_to_dict rows = [] := by
        by_contra hne
        rcases resumeStart_pos (csv_to_dict rows) (List.length_pos.mpr hne) with
          ⟨e, he⟩ | ⟨t, ht⟩
        · rw [he] at hres; cases hres
        · rw [ht] at hres; cases hres
      cases hfw : fetchWindow device none none with
      | error e =>
        rw [update_run_none_err device rows e hres hfw] at h
        cases h
      | ok items =>
        rw [update_run_none_ok device rows items hres hfw] at h
        have hr : res = rows ++ to_csv items true := (Except.ok.inj h).symm
        refine ⟨none, items, rfl, hfw, ?_, by simp [hempty], ?_⟩
        · rw [hempty]
          simpa using hr
        · rw [hr, List.length_append, to_csv_length]
          by_cases hi : items = []
          · simp [hi, hempty]
          · simp [hi, hempty]
            omega
    | some t =>
      have hnonempty : csv_to_dict rows ≠ [] := by
        intro h0
        rw [h0] at hres
        simp [resumeStart] at hres
      cases hfw : fetchWindow device (some t) none with
      | error e =>
        rw [update_run_some_err device rows t e hres hfw] at h
        cases h
      | ok items =>
        rw [update_run_some_ok device rows t items hres hfw] at h
        have hr : res = rows ++ to_csv items false := (Except.ok.inj h).symm
        have hie : (csv_to_dict rows).isEmpty = false := by
          cases hcd : csv_to_dict rows with
          | nil => exact absurd hcd hnonempty
          | cons x xs => rfl
        refine ⟨some t, items, rfl, hfw, ?_, by simp [hnonempty], ?_⟩
        · rw [hie]
          exact hr
        · rw [hr, List.length_append, to_csv_length]
          simp [hnonempty]

/-- Witness for C4 (amended) on the §8 scenario run. -/
theorem c4_header_amended_witness :
    update_run devBoundary rows0 = .ok
      [["Datetime", "Temp"], ["2024-01-01 00:00:00", "20"],
       ["2024-01-01 00:00:00", "20"], ["2024-01-01 00:05:00", "21"]] ∧
    (∃ s items, resumeStart (csv_to_dict rows0) = .ok s ∧
      fetchWindow devBoundary s none = .ok items ∧
      [["Datetime", "Temp"], ["2024-01-01 00:00:00", "20"],
       ["2024-01-01 00:00:00", "20"], ["2024-01-01 00:05:00", "21"]] =
        rows0 ++ to_csv items (csv_to_dict rows0).isEmpty ∧
      (s = none ↔ csv_to_dict rows0 = []) ∧
      List.length [["Datetime", "Temp"], ["2024-01-01 00:00:00", "20"],
       ["2024-01-01 00:00:00", "20"], ["2024-01-01 00:05:00", "21"]] =
        rows0.length + items.length +
          (if csv_to_dict rows0 = [] ∧ items ≠ [] then 1 else 0)) :=
  ⟨rfl, c4_header_amended devBoundary rows0 _ rfl⟩

/-- C5: every successful synchronization pass only appends: the final
store content extends the loaded content by a suffix — existing rows are
unchanged and in their original order, and no full rewrite occurs. -/
theorem c5_append_only (device : Device) (rows res : List Row)
    (h : update_run device rows = .ok res) :
    ∃ suffix, res = rows ++ suffix := by
  cases hres : resumeStart (csv_to_dict rows) with
  | error e =>
    rw [update_run_err device rows e hres] at h
    cases h
  | ok s =>
    cases s with
    | none =>
      cases hfw : fetchWindow device none none with
      | error e =>
        rw [update_run_none_err device rows e hres hfw] at h
        cases h
      | ok items =>
        rw [update_run_none_ok device rows items hres hfw] at h
        exact ⟨to_csv items true, (Except.ok.inj h).symm⟩
    | some t =>
      cases hfw : fetchWindow device (some t) none with
      | error e =>
        rw [update_run_some_err device rows t e hres hfw] at h
        cases h
      | ok items =>
        rw [update_run_some_ok device rows t items hres hfw] at h
        exact ⟨to_csv items false, (Except.ok.inj h).symm⟩

/-- Witness for C5 on the §8 scenario run. -/
theorem c5_append_only_witness :
    update_run devBoundary rows0 = .ok
      [["Datetime", "Temp"], ["2024-01-01 00:00:00", "20"],
       ["2024-01-01 00:00:00", "20"], ["2024-01-01 00:05:00", "21"]] ∧
    (∃ suffix, [["Datetime", "Temp"], ["2024-01-01 00:00:00", "20"],
       ["2024-01-01 00:00:00", "20"], ["2024-01-01 00:05:00", "21"]] = rows0 ++ suffix) :=
  ⟨rfl, c5_append_only devBoundary rows0 _ rfl⟩

/-- C6: writing a non-empty collection of consistent schema to a fresh
store with a header and loading it back reproduces the collection
exactly — same records, same field values, same order. The schema
hypotheses state what "consistent schema" means for Python dicts: every
record lists the same field names in the same order, and field names are
unique within a record (a dict cannot hold duplicate keys). -/
theorem c6_round_trip (r0 : Record) (rest : List Record)
    (hschema : ∀ r ∈ r0 :: rest, fieldNames r = fieldNames r0)
    (hnodup : (fieldNames r0).Nodup) :
    csv_to_dict (to_csv (r0 :: rest) true) = r0 :: rest := by
  have hrow : ∀ r ∈ r0 :: rest, (fieldNames r0).zip (rowOf (fieldNames r0) r) = r := by
    intro r hr
    rw [← hschema r hr]
    rw [rowOf_self r (by rw [hschema r hr]; exact hnodup)]
    exact zip_fst_snd r
  show ((r0 :: rest).map (rowOf (fieldNames r0))).map
      (fun row => (fieldNames r0).zip row) = r0 :: rest
  rw [List.map_map]
  calc ((r0 :: rest).map ((fun row => (fieldNames r0).zip row) ∘ rowOf (fieldNames r0)))
      = (r0 :: rest).map id := List.map_congr_left (fun r hr => hrow r hr)
    _ = r0 :: rest := List.map_id _

/-- Witness for C6 on a concrete two-record collection. -/
theorem c6_round_trip_witness :
    (∀ r ∈ [recA, recB], fieldNames r = fieldNames recA) ∧
    (fieldNames recA).Nodup ∧
    csv_to_dict (to_csv [recA, recB] true) = [recA, recB] :=
  ⟨by decide, by decide, c6_round_trip recA [recB] (by decide) (by decide)⟩

/-- C7: a fetch pass over a window in which the device yields no records
returns an empty collection rather than an error, and the merge step run
with that result leaves the store's content exactly as it was. -/
theorem c7_empty_window (device : Device) (rows : List Row) (s : Option String)
    (hs : resumeStart (csv_to_dict rows) = .ok s)
    (hdev : device s none = .ok []) :
    getarchivesResult [] = [] ∧ update_run device rows = .ok rows := by
  have hfw : fetchWindow device s none = .ok [] := by
    simp only [fetchWindow, hdev, getarchivesResult_nil]
  refine ⟨rfl, ?_⟩
  cases s with
  | none =>
    have hu := update_run_none_ok device rows [] hs hfw
    simpa [to_csv] using hu
  | some t =>
    have hu := update_run_some_ok device rows t [] hs hfw
    simpa [to_csv] using hu

/-- Witness for C7 on the §8 scenario store with an empty device. -/
theorem c7_empty_window_witness :
    resumeStart (csv_to_dict rows0) = .ok (some "2024-01-01 00:00:00") ∧
    devEmpty (some "2024-01-01 00:00:00") none = .ok [] ∧
    (getarchivesResult [] = [] ∧ update_run devEmpty rows0 = .ok rows0) :=
  ⟨rfl, rfl, c7_empty_window devEmpty rows0 (some "2024-01-01 00:00:00") rfl rfl⟩

/-- C8 counterexample: the claim states every error is surfaced to the
caller unmodified. In non-debug mode `main` catches the exception and
reports `parser.error(f'{e}')` — a CLI error carrying only the message,
not the error itself — so the outcome differs from surfacing the
connectivity error unmodified. -/
theorem c8_counterexample :
    update_run devBoom [] = .error (.connectivity "boom") ∧
    main_run false devBoom [] = .cliError "boom" ∧
    main_run false devBoom [] ≠ .failed (.connectivity "boom") :=
  ⟨rfl, rfl, by decide⟩

/-- C8 amended: every error raised during a synchronization run aborts
the run with no partial commit — the store content is exactly as loaded
— and the error reaches the caller: unmodified in debug mode, converted
to a CLI parser error carrying the error's message in non-debug mode. -/
theorem c8_error_abort (device : Device) (rows : List Row) (e : Err)
    (h : update_run device rows = .error e) :
    main_run true device rows = .failed e ∧
    main_run false device rows = .cliError (errMessage e) ∧
    storeAfter device rows = rows := by
  refine ⟨?_, ?_, ?_⟩ <;> simp [main_run, storeAfter, h]

/-- Witness for C8 (amended) with a failing device on the §8 store. -/
theorem c8_error_abort_witness :
    update_run devBoom rows0 = .error (.connectivity "boom") ∧
    (main_run true devBoom rows0 = .failed (.connectivity "boom") ∧
     main_run false devBoom rows0 = .cliError (errMessage (.connectivity "boom")) ∧
     storeAfter devBoom rows0 = rows0) :=
  ⟨rfl, c8_error_abort devBoom rows0 (.connectivity "boom") rfl⟩

/-- A device that yields the two §8 records (newest first) for every
window. -/
def devAll : Device := fun _ _ => .ok [recB, recA]

/-- C10: a store file holding only a header row loads as zero records,
so the update takes the empty-store branch: the fetch is requested with
no lower bound and no upper bound, and the batch is serialized with a
header row — the file ends up with a second header row written after
the first. -/
theorem c10_header_only_store (hdr : Row) (device : Device) (src : List Record)
    (r0 : Record) (rest : List Record)
    (hdev : device none none = .ok src)
    (harch : getarchivesResult src = r0 :: rest) :
    csv_to_dict [hdr] = [] ∧
    resumeStart (csv_to_dict [hdr]) = .ok none ∧
    update_run device [hdr] =
      .ok (hdr :: fieldNames r0 :: (r0 :: rest).map (rowOf (fieldNames r0))) := by
  refine ⟨rfl, rfl, ?_⟩
  have hfw : fetchWindow device none none = .ok (r0 :: rest) := by
    simp only [fetchWindow, hdev, harch]
  exact update_run_none_ok device [hdr] (r0 :: rest) rfl hfw

/-- Witness for C10 on a concrete header-only store. -/
theorem c10_header_only_store_witness :
    devAll none none = .ok [recB, recA] ∧
    getarchivesResult [recB, recA] = recA :: [recB] ∧
    (csv_to_dict [["Datetime", "Temp"]] = [] ∧
     resumeStart (csv_to_dict [["Datetime", "Temp"]]) = .ok none ∧
     update_run devAll [["Datetime", "Temp"]] =
       .ok (["Datetime", "Temp"] :: fieldNames recA ::
         (recA :: [recB]).map (rowOf (fieldNames recA)))) :=
  ⟨rfl, rfl,
    c10_header_only_store ["Datetime", "Temp"] devAll [recB, recA] recA [recB] rfl rfl⟩

end PyVantagePro
